import Mathlib

/-!
Verification of the idlemail daemon against its specification.

The development shallowly embeds the relevant parts of the source:
  * `src/retryagents/memory.rs` (the memory retry agent's worker loop),
  * `src/config.rs` (`ConfigContainer::validate` / `from_file`),
  * `src/sources/common.rs` (`ImapConnection`: `session`, `take_session`,
    `run`, `idle`, and the `Drop` impl).

Machine integers are modelled as `Nat` (no arithmetic in the embedded code
can overflow in any claim-relevant way), `SystemTime` as a `Nat` tick count,
and fallible Rust code as explicit outcome inductives, with a dedicated
constructor for a Rust panic where the source can panic.
-/

/-- Modelled from the spec: the `Mail` value of `src/hub.rs` (which is not part
of the sources available here) is "an opaque, immutable envelope: the raw
RFC822 byte body, plus a provenance tag (source name)". -/
structure Mail where
  body : List Nat
  sourceName : String
deriving DecidableEq

/-- A retry-queue entry of the memory retry agent: the Rust code stores
`(SystemTime, String, Mail)` triples, i.e. (retransmission time, destination
name, mail). -/
abbrev RetryEntry := Nat × String × Mail

/-- Modelled from the spec: one wakeup of the agent's worker loop is caused by
the result of `channel.next_timeout(1s)` on the Hub channel (`src/hub.rs` is
not among the available sources): a 1-second timeout, a disconnect (shutdown),
or a received `RetryAgentMessage::QueueMail { dstname, mail }`. -/
inductive AgentEvent where
  | timeout
  | disconnected
  | queueMail (dstname : String) (mail : Mail)
deriving DecidableEq

/-- Result of the flush loop (`for i in 0..queue.len() { ... }`) in
`MemoryRetryAgent::start`: either the loop finishes (emitted notifications
plus the remaining queue) or one of its `unwrap()` calls panics, in which
case only the notifications emitted before the panic were sent. -/
inductive FlushOut where
  | ok (emitted : List (String × Mail)) (queue : List RetryEntry)
  | panicked (emitted : List (String × Mail))
deriving DecidableEq

/-- The notifications emitted by a flush, whether or not it panicked. -/
def FlushOut.emitted : FlushOut → List (String × Mail)
  | FlushOut.ok em _ => em
  | FlushOut.panicked em => em

/-- The flush loop body of `MemoryRetryAgent::start` (memory.rs lines 70-84):

```
for i in 0..queue.len() {
    if queue.get(i).unwrap().0 < now {
        let mail = queue.pop_front().unwrap();
        channel.notify_retry_mail(mail.1, mail.2)
    } else { break }
}
```

`n` is the queue length captured when the range `0..queue.len()` was built,
`i` the loop index, `q` the current queue, `em` the notifications emitted so
far. `queue.get(i)` returning `None` makes the `unwrap()` panic; when
`queue.get(i)` succeeds the queue is nonempty, so `pop_front().unwrap()` is
the head of `q`. -/
def flushGo (now n : Nat) (i : Nat) (q : List RetryEntry)
    (em : List (String × Mail)) : FlushOut :=
  match q with
  | [] => if i < n then FlushOut.panicked em else FlushOut.ok em []
  | e :: rest =>
    if i < n then
      match (e :: rest).get? i with
      | none => FlushOut.panicked em
      | some due =>
        if due.1 < now then
          flushGo now n (i + 1) rest (em ++ [(e.2.1, e.2.2)])
        else FlushOut.ok em (e :: rest)
    else FlushOut.ok em (e :: rest)

/-- The complete "see if any of the queued mails is due" section: the range is
`0..queue.len()`, the index starts at 0, nothing has been emitted yet. -/
def flushDue (q : List RetryEntry) (now : Nat) : FlushOut :=
  flushGo now q.length 0 q []

/-- Outcome of one iteration of the worker loop of `MemoryRetryAgent::start`. -/
inductive StepOut where
  | cont (emitted : List (String × Mail)) (queue : List RetryEntry)
  | stopped
  | panicked (emitted : List (String × Mail))
deriving DecidableEq

/-- One iteration of the worker loop of `MemoryRetryAgent::start`
(memory.rs lines 44-85), woken at time `now`:
  * `Disconnected` logs and breaks out of the loop (before any flush);
  * `Timeout` falls through to the flush;
  * `QueueMail { dstname, mail }` pushes
    `(now + delay, dstname, mail)` to the back of the queue, then flushes. -/
def MemoryRetryAgent.step (delay : Nat) (q : List RetryEntry) (ev : AgentEvent)
    (now : Nat) : StepOut :=
  match ev with
  | AgentEvent.disconnected => StepOut.stopped
  | AgentEvent.timeout =>
    match flushDue q now with
    | FlushOut.ok em q' => StepOut.cont em q'
    | FlushOut.panicked em => StepOut.panicked em
  | AgentEvent.queueMail dstname mail =>
    match flushDue (q ++ [(now + delay, dstname, mail)]) now with
    | FlushOut.ok em q' => StepOut.cont em q'
    | FlushOut.panicked em => StepOut.panicked em

/-- Final outcome of running the agent over a finite trace of wakeups: still
running (trace exhausted), stopped (channel disconnected), or the worker
thread panicked. Each emitted notification is tagged with the wakeup time at
which `notify_retry_mail` was called. -/
inductive RunOut where
  | running (emitted : List (Nat × String × Mail)) (queue : List RetryEntry)
  | stopped (emitted : List (Nat × String × Mail))
  | panicked (emitted : List (Nat × String × Mail))
deriving DecidableEq

/-- All notifications emitted during a run, with their emission times. -/
def RunOut.emissions : RunOut → List (Nat × String × Mail)
  | RunOut.running em _ => em
  | RunOut.stopped em => em
  | RunOut.panicked em => em

/-- The worker loop of `MemoryRetryAgent::start` over a finite trace of
wakeups `(event, wakeup time)`, threading the queue and accumulating the
emitted notifications. -/
def MemoryRetryAgent.run (delay : Nat) :
    List (AgentEvent × Nat) → List RetryEntry → List (Nat × String × Mail) → RunOut
  | [], _q, em => RunOut.running em _q
  | (ev, now) :: rest, q, em =>
    match MemoryRetryAgent.step delay q ev now with
    | StepOut.cont em2 q' =>
      MemoryRetryAgent.run delay rest q' (em ++ em2.map (fun p => (now, p.1, p.2)))
    | StepOut.stopped => RunOut.stopped em
    | StepOut.panicked em2 => RunOut.panicked (em ++ em2.map (fun p => (now, p.1, p.2)))

/-- Every notification emitted by the flush loop either was already in the
accumulator or is the projection of an entry of the queue it started from. -/
lemma flushGo_emitted_origin (now n : Nat) (q : List RetryEntry) :
    ∀ (i : Nat) (em : List (String × Mail)) (x : String × Mail),
      x ∈ (flushGo now n i q em).emitted →
      x ∈ em ∨ ∃ e ∈ q, x = (e.2.1, e.2.2) := by
  induction q with
  | nil =>
    intro i em x hx
    left
    simp only [flushGo] at hx
    split at hx <;> simpa [FlushOut.emitted] using hx
  | cons e rest ih =>
    intro i em x hx
    simp only [flushGo] at hx
    split at hx
    · split at hx
      · left; simpa [FlushOut.emitted] using hx
      · split at hx
        · rcases ih (i + 1) (em ++ [(e.2.1, e.2.2)]) x hx with hmem | ⟨e', he', hxe⟩
          · rcases List.mem_append.mp hmem with h1 | h2
            · exact Or.inl h1
            · exact Or.inr ⟨e, List.mem_cons_self e rest, by simpa using h2⟩
          · exact Or.inr ⟨e', List.mem_cons_of_mem e he', hxe⟩
        · left; simpa [FlushOut.emitted] using hx
    · left; simpa [FlushOut.emitted] using hx

/-- When the queue's retransmission times are nondecreasing in queue order,
every notification the flush loop emits comes from an entry that was actually
due (`retransmission time < now`). The nondecreasing hypothesis is needed
because the loop checks `queue.get(i)` but pops the front entry, so the entry
whose time is compared is in general behind the one that gets emitted. -/
lemma flushGo_emitted_due (now n : Nat) (q : List RetryEntry) :
    List.Pairwise (fun a b : RetryEntry => a.1 ≤ b.1) q →
    ∀ (i : Nat) (em : List (String × Mail)) (x : String × Mail),
      x ∈ (flushGo now n i q em).emitted →
      x ∈ em ∨ ∃ e ∈ q, x = (e.2.1, e.2.2) ∧ e.1 < now := by
  induction q with
  | nil =>
    intro _ i em x hx
    left
    simp only [flushGo] at hx
    split at hx <;> simpa [FlushOut.emitted] using hx
  | cons e rest ih =>
    intro hp i em x hx
    obtain ⟨hhead, htail⟩ := List.pairwise_cons.mp hp
    simp only [flushGo] at hx
    split at hx
    · split at hx
      · left; simpa [FlushOut.emitted] using hx
      · rename_i due hget
        split at hx
        · rename_i hlt
          have hdmem : due ∈ e :: rest := List.get?_mem hget
          have he_lt : e.1 < now := by
            rcases List.mem_cons.mp hdmem with hde | hdr
            · rw [← hde]; exact hlt
            · exact lt_of_le_of_lt (hhead due hdr) hlt
          rcases ih htail (i + 1) (em ++ [(e.2.1, e.2.2)]) x hx with hmem | ⟨e', he', hxe, he'lt⟩
          · rcases List.mem_append.mp hmem with h1 | h2
            · exact Or.inl h1
            · exact Or.inr ⟨e, List.mem_cons_self e rest, by simpa using h2, he_lt⟩
          · exact Or.inr ⟨e', List.mem_cons_of_mem e he', hxe, he'lt⟩
        · left; simpa [FlushOut.emitted] using hx
    · left; simpa [FlushOut.emitted] using hx

/-- When the flush loop terminates without panicking, the remaining queue is a
sublist (in fact a suffix) of the queue it started from. -/
lemma flushGo_ok_sublist (now n : Nat) (q : List RetryEntry) :
    ∀ (i : Nat) (em em' : List (String × Mail)) (q' : List RetryEntry),
      flushGo now n i q em = FlushOut.ok em' q' → q'.Sublist q := by
  induction q with
  | nil =>
    intro i em em' q' h
    simp only [flushGo] at h
    split at h
    · cases h
    · cases h; exact List.Sublist.refl _
  | cons e rest ih =>
    intro i em em' q' h
    simp only [flushGo] at h
    split at h
    · split at h
      · cases h
      · split at h
        · exact (ih _ _ _ _ h).trans (List.sublist_cons_self e rest)
        · cases h; exact List.Sublist.refl _
    · cases h; exact List.Sublist.refl _

/-- Trace-level origin invariant: running the worker loop from a queue whose
entries all stem from `QueueMail` events of `trace`, every notification it
ever emits carries the (destination name, mail) pair of some `QueueMail`
event of `trace`. -/
lemma run_emissions_origin (delay : Nat) (trace : List (AgentEvent × Nat)) :
    ∀ (rest : List (AgentEvent × Nat)) (q : List RetryEntry)
      (em : List (Nat × String × Mail)),
      (∀ p ∈ rest, p ∈ trace) →
      (∀ e ∈ q, ∃ tq, (AgentEvent.queueMail e.2.1 e.2.2, tq) ∈ trace) →
      (∀ z ∈ em, ∃ tq, (AgentEvent.queueMail z.2.1 z.2.2, tq) ∈ trace) →
      ∀ x ∈ (MemoryRetryAgent.run delay rest q em).emissions,
        ∃ tq, (AgentEvent.queueMail x.2.1 x.2.2, tq) ∈ trace := by
  intro rest
  induction rest with
  | nil =>
    intro q em _ _ hem x hx
    exact hem x (by simpa [MemoryRetryAgent.run, RunOut.emissions] using hx)
  | cons p rest ih =>
    obtain ⟨ev, now⟩ := p
    intro q em hsub hq hem x hx
    have hsub' : ∀ p ∈ rest, p ∈ trace := fun p hp => hsub p (List.mem_cons_of_mem _ hp)
    cases ev with
    | disconnected =>
      simp only [MemoryRetryAgent.run, MemoryRetryAgent.step, RunOut.emissions] at hx
      exact hem x hx
    | timeout =>
      have hflush : ∀ y ∈ (flushDue q now).emitted,
          ∃ tq, (AgentEvent.queueMail y.1 y.2, tq) ∈ trace := by
        intro y hy
        rcases flushGo_emitted_origin now q.length q 0 [] y hy with h0 | ⟨e, he, hye⟩
        · exact absurd h0 (List.not_mem_nil y)
        · subst hye; exact hq e he
      cases hf : flushDue q now with
      | ok em2 q2 =>
        rw [flushDue] at hf
        simp only [MemoryRetryAgent.run, MemoryRetryAgent.step, flushDue, hf] at hx
        refine ih q2 (em ++ em2.map (fun p => (now, p.1, p.2))) hsub' ?_ ?_ x hx
        · intro e he
          exact hq e ((flushGo_ok_sublist now q.length q 0 [] em2 q2 hf).subset he)
        · intro z hz
          rcases List.mem_append.mp hz with h1 | h2
          · exact hem z h1
          · rcases List.mem_map.mp h2 with ⟨y, hy, hyz⟩
            rcases hflush y (by rw [flushDue, hf]; exact hy) with ⟨tq, htq⟩
            exact ⟨tq, by rw [← hyz]; exact htq⟩
      | panicked em2 =>
        rw [flushDue] at hf
        simp only [MemoryRetryAgent.run, MemoryRetryAgent.step, flushDue, hf,
          RunOut.emissions] at hx
        rcases List.mem_append.mp hx with h1 | h2
        · exact hem x h1
        · rcases List.mem_map.mp h2 with ⟨y, hy, hyz⟩
          rcases hflush y (by rw [flushDue, hf]; exact hy) with ⟨tq, htq⟩
          exact ⟨tq, by rw [← hyz]; exact htq⟩
    | queueMail dst m =>
      have hq1 : ∀ e ∈ q ++ [(now + delay, dst, m)],
          ∃ tq, (AgentEvent.queueMail e.2.1 e.2.2, tq) ∈ trace := by
        intro e he
        rcases List.mem_append.mp he with h1 | h2
        · exact hq e h1
        · have : e = (now + delay, dst, m) := by simpa using h2
          subst this
          exact ⟨now, hsub _ (List.mem_cons_self _ _)⟩
      have hflush : ∀ y ∈ (flushDue (q ++ [(now + delay, dst, m)]) now).emitted,
          ∃ tq, (AgentEvent.queueMail y.1 y.2, tq) ∈ trace := by
        intro y hy
        rcases flushGo_emitted_origin now (q ++ [(now + delay, dst, m)]).length
            (q ++ [(now + delay, dst, m)]) 0 [] y hy with h0 | ⟨e, he, hye⟩
        · exact absurd h0 (List.not_mem_nil y)
        · subst hye; exact hq1 e he
      cases hf : flushDue (q ++ [(now + delay, dst, m)]) now with
      | ok em2 q2 =>
        rw [flushDue] at hf
        simp only [MemoryRetryAgent.run, MemoryRetryAgent.step, flushDue, hf] at hx
        refine ih q2 (em ++ em2.map (fun p => (now, p.1, p.2))) hsub' ?_ ?_ x hx
        · intro e he
          exact hq1 e ((flushGo_ok_sublist now (q ++ [(now + delay, dst, m)]).length
            (q ++ [(now + delay, dst, m)]) 0 [] em2 q2 hf).subset he)
        · intro z hz
          rcases List.mem_append.mp hz with h1 | h2
          · exact hem z h1
          · rcases List.mem_map.mp h2 with ⟨y, hy, hyz⟩
            rcases hflush y (by rw [flushDue, hf]; exact hy) with ⟨tq, htq⟩
            exact ⟨tq, by rw [← hyz]; exact htq⟩
      | panicked em2 =>
        rw [flushDue] at hf
        simp only [MemoryRetryAgent.run, MemoryRetryAgent.step, flushDue, hf,
          RunOut.emissions] at hx
        rcases List.mem_append.mp hx with h1 | h2
        · exact hem x h1
        · rcases List.mem_map.mp h2 with ⟨y, hy, hyz⟩
          rcases hflush y (by rw [flushDue, hf]; exact hy) with ⟨tq, htq⟩
          exact ⟨tq, by rw [← hyz]; exact htq⟩

/-- Trace-level temporal invariant: under nondecreasing wakeup times, every
notification the worker loop ever emits stems from a `QueueMail` event of the
trace whose retransmission time (receipt time plus delay) had strictly passed
at the emitting wakeup. The invariants carried through the induction are: the
queue is nondecreasing in retransmission time, each queued entry's time is at
most `tprev + delay`, and each queued entry records a `QueueMail` of the
trace with exactly its receipt time plus the delay. -/
lemma run_emissions_bounded (delay : Nat) (trace : List (AgentEvent × Nat)) :
    ∀ (rest : List (AgentEvent × Nat)) (tprev : Nat) (q : List RetryEntry)
      (em : List (Nat × String × Mail)),
      (∀ p ∈ rest, p ∈ trace) →
      List.Chain (fun a b : Nat => a ≤ b) tprev (rest.map Prod.snd) →
      List.Pairwise (fun a b : RetryEntry => a.1 ≤ b.1) q →
      (∀ e ∈ q, e.1 ≤ tprev + delay) →
      (∀ e ∈ q, ∃ tq, (AgentEvent.queueMail e.2.1 e.2.2, tq) ∈ trace ∧ e.1 = tq + delay) →
      (∀ z ∈ em, ∃ tq, (AgentEvent.queueMail z.2.1 z.2.2, tq) ∈ trace ∧ tq + delay < z.1) →
      ∀ x ∈ (MemoryRetryAgent.run delay rest q em).emissions,
        ∃ tq, (AgentEvent.queueMail x.2.1 x.2.2, tq) ∈ trace ∧ tq + delay < x.1 := by
  intro rest
  induction rest with
  | nil =>
    intro tprev q em _ _ _ _ _ hem x hx
    exact hem x (by simpa [MemoryRetryAgent.run, RunOut.emissions] using hx)
  | cons p rest ih =>
    obtain ⟨ev, now⟩ := p
    intro tprev q em hsub hchain hpw hbound horigin hem x hx
    have hsub' : ∀ p ∈ rest, p ∈ trace := fun p hp => hsub p (List.mem_cons_of_mem _ hp)
    rw [List.map_cons] at hchain
    cases hchain with
    | cons hle hchain' =>
    cases ev with
    | disconnected =>
      simp only [MemoryRetryAgent.run, MemoryRetryAgent.step, RunOut.emissions] at hx
      exact hem x hx
    | timeout =>
      have hflush : ∀ y ∈ (flushDue q now).emitted,
          ∃ tq, (AgentEvent.queueMail y.1 y.2, tq) ∈ trace ∧ tq + delay < now := by
        intro y hy
        rcases flushGo_emitted_due now q.length q hpw 0 [] y hy with h0 | ⟨e, he, hye, helt⟩
        · exact absurd h0 (List.not_mem_nil y)
        · subst hye
          rcases horigin e he with ⟨tq, htq, heq⟩
          exact ⟨tq, htq, heq ▸ helt⟩
      cases hf : flushDue q now with
      | ok em2 q2 =>
        rw [flushDue] at hf
        simp only [MemoryRetryAgent.run, MemoryRetryAgent.step, flushDue, hf] at hx
        have hq2 : q2.Sublist q := flushGo_ok_sublist now q.length q 0 [] em2 q2 hf
        refine ih now q2 (em ++ em2.map (fun p => (now, p.1, p.2)))
          hsub' hchain' (hpw.sublist hq2) ?_ ?_ ?_ x hx
        · intro e he
          exact le_trans (hbound e (hq2.subset he)) (Nat.add_le_add_right hle delay)
        · intro e he
          exact horigin e (hq2.subset he)
        · intro z hz
          rcases List.mem_append.mp hz with h1 | h2
          · exact hem z h1
          · rcases List.mem_map.mp h2 with ⟨y, hy, hyz⟩
            rcases hflush y (by rw [flushDue, hf]; exact hy) with ⟨tq, htq, hlt⟩
            exact ⟨tq, by rw [← hyz]; exact htq, by rw [← hyz]; exact hlt⟩
      | panicked em2 =>
        rw [flushDue] at hf
        simp only [MemoryRetryAgent.run, MemoryRetryAgent.step, flushDue, hf,
          RunOut.emissions] at hx
        rcases List.mem_append.mp hx with h1 | h2
        · exact hem x h1
        · rcases List.mem_map.mp h2 with ⟨y, hy, hyz⟩
          rcases hflush y (by rw [flushDue, hf]; exact hy) with ⟨tq, htq, hlt⟩
          exact ⟨tq, by rw [← hyz]; exact htq, by rw [← hyz]; exact hlt⟩
    | queueMail dst m =>
      have hboundq : ∀ e ∈ q, e.1 ≤ now + delay :=
        fun e he => le_trans (hbound e he) (Nat.add_le_add_right hle delay)
      have hpw1 : List.Pairwise (fun a b : RetryEntry => a.1 ≤ b.1)
          (q ++ [(now + delay, dst, m)]) := by
        refine List.pairwise_append.mpr ⟨hpw, List.pairwise_singleton _ _, ?_⟩
        intro a ha b hb
        have : b = (now + delay, dst, m) := by simpa using hb
        subst this
        exact hboundq a ha
      have horigin1 : ∀ e ∈ q ++ [(now + delay, dst, m)],
          ∃ tq, (AgentEvent.queueMail e.2.1 e.2.2, tq) ∈ trace ∧ e.1 = tq + delay := by
        intro e he
        rcases List.mem_append.mp he with h1 | h2
        · exact horigin e h1
        · have : e = (now + delay, dst, m) := by simpa using h2
          subst this
          exact ⟨now, hsub _ (List.mem_cons_self _ _), rfl⟩
      have hflush : ∀ y ∈ (flushDue (q ++ [(now + delay, dst, m)]) now).emitted,
          ∃ tq, (AgentEvent.queueMail y.1 y.2, tq) ∈ trace ∧ tq + delay < now := by
        intro y hy
        rcases flushGo_emitted_due now (q ++ [(now + delay, dst, m)]).length
            (q ++ [(now + delay, dst, m)]) hpw1 0 [] y hy with h0 | ⟨e, he, hye, helt⟩
        · exact absurd h0 (List.not_mem_nil y)
        · subst hye
          rcases horigin1 e he with ⟨tq, htq, heq⟩
          exact ⟨tq, htq, heq ▸ helt⟩
      cases hf : flushDue (q ++ [(now + delay, dst, m)]) now with
      | ok em2 q2 =>
        rw [flushDue] at hf
        simp only [MemoryRetryAgent.run, MemoryRetryAgent.step, flushDue, hf] at hx
        have hq2 : q2.Sublist (q ++ [(now + delay, dst, m)]) :=
          flushGo_ok_sublist now (q ++ [(now + delay, dst, m)]).length
            (q ++ [(now + delay, dst, m)]) 0 [] em2 q2 hf
        refine ih now q2 (em ++ em2.map (fun p => (now, p.1, p.2)))
          hsub' hchain' (hpw1.sublist hq2) ?_ ?_ ?_ x hx
        · intro e he
          rcases List.mem_append.mp (hq2.subset he) with h1 | h2
          · exact hboundq e h1
          · have : e = (now + delay, dst, m) := by simpa using h2
            subst this
            exact le_refl _
        · intro e he
          exact horigin1 e (hq2.subset he)
        · intro z hz
          rcases List.mem_append.mp hz with h1 | h2
          · exact hem z h1
          · rcases List.mem_map.mp h2 with ⟨y, hy, hyz⟩
            rcases hflush y (by rw [flushDue, hf]; exact hy) with ⟨tq, htq, hlt⟩
            exact ⟨tq, by rw [← hyz]; exact htq, by rw [← hyz]; exact hlt⟩
      | panicked em2 =>
        rw [flushDue] at hf
        simp only [MemoryRetryAgent.run, MemoryRetryAgent.step, flushDue, hf,
          RunOut.emissions] at hx
        rcases List.mem_append.mp hx with h1 | h2
        · exact hem x h1
        · rcases List.mem_map.mp h2 with ⟨y, hy, hyz⟩
          rcases hflush y (by rw [flushDue, hf]; exact hy) with ⟨tq, htq, hlt⟩
          exact ⟨tq, by rw [← hyz]; exact htq, by rw [← hyz]; exact hlt⟩

/-- A nondecreasing list of naturals is a chain from 0. -/
lemma chain_le_zero_of_chain' (l : List Nat)
    (h : List.Chain' (fun a b : Nat => a ≤ b) l) :
    List.Chain (fun a b : Nat => a ≤ b) 0 l := by
  cases l with
  | nil => exact List.Chain.nil
  | cons a t => exact List.Chain.cons (Nat.zero_le a) h

def mailOne : Mail := { body := [1], sourceName := "s1" }

def mailTwo : Mail := { body := [2], sourceName := "s1" }

/-- Claim C1: the claim states that on every wakeup all due entries are
emitted to the Hub in FIFO order, for every queue length and any number of
simultaneously due entries. The code instead panics: with two mails queued at
t=0 (delay 1) and a timeout wakeup at t=5 (both entries due), the flush loop
pops the first entry, then evaluates `queue.get(1).unwrap()` on the remaining
one-element queue and panics, so the worker thread dies having emitted only
the first of the two due entries. -/
theorem c1_flush_panics :
    MemoryRetryAgent.run 1
      [(AgentEvent.queueMail "d1" mailOne, 0),
       (AgentEvent.queueMail "d2" mailTwo, 0),
       (AgentEvent.timeout, 5)] [] []
    = RunOut.panicked [(5, "d1", mailOne)] := rfl

/-- Claim C2: for every mail queued at the memory retry agent at time `tq`
with configured delay, every emission of that (destination, mail) pair during
the whole run happens at a wakeup time strictly greater than `tq + delay` —
the agent never notifies the Hub before the retransmission time has passed.
The wakeup times of the trace must be nondecreasing (the worker reads a
monotone-enough clock once per wakeup). -/
theorem c2_retry_never_early (delay : Nat) (trace : List (AgentEvent × Nat))
    (hmono : List.Chain' (fun a b : Nat => a ≤ b) (trace.map Prod.snd))
    (x : Nat × String × Mail)
    (hx : x ∈ (MemoryRetryAgent.run delay trace [] []).emissions) :
    ∃ tq, (AgentEvent.queueMail x.2.1 x.2.2, tq) ∈ trace ∧ tq + delay < x.1 := by
  refine run_emissions_bounded delay trace trace 0 [] [] (fun p hp => hp)
    (chain_le_zero_of_chain' _ hmono) List.Pairwise.nil ?_ ?_ ?_ x hx
  · intro e he; exact absurd he (List.not_mem_nil e)
  · intro e he; exact absurd he (List.not_mem_nil e)
  · intro z hz; exact absurd hz (List.not_mem_nil z)

def witnessTrace : List (AgentEvent × Nat) :=
  [(AgentEvent.queueMail "d" mailOne, 0), (AgentEvent.timeout, 2)]

theorem c2_retry_never_early_witness :
    ∃ tq, (AgentEvent.queueMail "d" mailOne, tq) ∈ witnessTrace ∧ tq + 1 < 2 :=
  c2_retry_never_early 1 witnessTrace
    (by
      show List.Chain (fun a b : Nat => a ≤ b) 0 [2]
      exact List.Chain.cons (by decide) List.Chain.nil)
    (2, "d", mailOne) (by decide)

/-- Claim C4: every `RetryMail` notification the memory retry agent emits
carries exactly the (destination name, mail) pair of some `QueueMail` it
received; it never pairs a mail with a destination name other than the one
the mail was queued with. -/
theorem c4_destination_preserved (delay : Nat) (trace : List (AgentEvent × Nat))
    (x : Nat × String × Mail)
    (hx : x ∈ (MemoryRetryAgent.run delay trace [] []).emissions) :
    ∃ tq, (AgentEvent.queueMail x.2.1 x.2.2, tq) ∈ trace := by
  refine run_emissions_origin delay trace trace [] [] (fun p hp => hp) ?_ ?_ x hx
  · intro e he; exact absurd he (List.not_mem_nil e)
  · intro z hz; exact absurd hz (List.not_mem_nil z)

theorem c4_destination_preserved_witness :
    ∃ tq, (AgentEvent.queueMail "d" mailOne, tq) ∈ witnessTrace :=
  c4_destination_preserved 1 witnessTrace (2, "d", mailOne) (by decide)

/-- The `auth` config variants of config.rs: `plain` and `login`, each with
user and password. -/
inductive AuthMethod where
  | Plain (user password : String)
  | Login (user password : String)
deriving DecidableEq

/-- `ImapPollSourceConfig` of config.rs. -/
structure ImapPollSourceConfig where
  server : String
  port : Nat
  interval : Nat
  keep : Bool
  auth : AuthMethod
deriving DecidableEq

/-- `ImapIdleSourceConfig` of config.rs. -/
structure ImapIdleSourceConfig where
  server : String
  port : Nat
  path : String
  renewinterval : Nat
  keep : Bool
  auth : AuthMethod
deriving DecidableEq

/-- `SourceConfig` of config.rs, tagged by `type`. -/
inductive SourceConfig where
  | Test
  | ImapPoll (cfg : ImapPollSourceConfig)
  | ImapIdle (cfg : ImapIdleSourceConfig)
deriving DecidableEq

/-- `SmtpDestinationConfig` of config.rs. -/
structure SmtpDestinationConfig where
  server : String
  port : Nat
  ssl : Bool
  auth : Option AuthMethod
  recipient : String
deriving DecidableEq

/-- `TestDestinationConfig` of config.rs. -/
structure TestDestinationConfig where
  failNFirst : Nat
deriving DecidableEq

/-- `ExecDestinationConfig` of config.rs. -/
structure ExecDestinationConfig where
  executable : String
  arguments : Option (List String)
  environment : Option (List (String × String))
deriving DecidableEq

/-- `DestinationConfig` of config.rs, tagged by `type`. -/
inductive DestinationConfig where
  | Test (cfg : TestDestinationConfig)
  | Smtp (cfg : SmtpDestinationConfig)
  | Exec (cfg : ExecDestinationConfig)
deriving DecidableEq

/-- `MemoryRetryAgentConfig` of config.rs. -/
structure MemoryRetryAgentConfig where
  delay : Nat
deriving DecidableEq

/-- `FilesystemRetryAgentConfig` of config.rs. -/
structure FilesystemRetryAgentConfig where
  delay : Nat
  path : String
deriving DecidableEq

/-- `RetryAgentConfig` of config.rs, tagged by `type`. -/
inductive RetryAgentConfig where
  | Memory (cfg : MemoryRetryAgentConfig)
  | Filesystem (cfg : FilesystemRetryAgentConfig)
deriving DecidableEq

/-- `ConfigContainer` of config.rs. The Rust `HashMap`s are modelled as
association lists; only key membership and lookup are used by `validate`. -/
structure ConfigContainer where
  destinations : List (String × DestinationConfig)
  sources : List (String × SourceConfig)
  retryagent : Option RetryAgentConfig
  mappings : List (String × List String)
deriving DecidableEq

/-- `HashMap::contains_key`. -/
def containsKey {α : Type} : List (String × α) → String → Bool
  | [], _ => false
  | (k, _) :: rest, key => if k = key then true else containsKey rest key

/-- `HashMap::get`, as used by `self.mappings.get(srcname)`. -/
def getValue {α : Type} : List (String × α) → String → Option α
  | [], _ => none
  | (k, v) :: rest, key => if k = key then some v else getValue rest key

/-- The inner loop of `validate` over the destination names of one mapping
entry (config.rs lines 26-33). -/
def checkMappingDsts (c : ConfigContainer) : List String → Except String Unit
  | [] => Except.ok ()
  | dstname :: rest =>
    if containsKey c.destinations dstname then checkMappingDsts c rest
    else Except.error ("Unknown destination: " ++ dstname ++ " specified in mappings")

/-- The first loop of `validate` over `self.mappings` (config.rs lines 22-34). -/
def checkMappings (c : ConfigContainer) : List (String × List String) → Except String Unit
  | [] => Except.ok ()
  | (srcname, dsts) :: rest =>
    if containsKey c.sources srcname then
      match checkMappingDsts c dsts with
      | Except.ok () => checkMappings c rest
      | Except.error e => Except.error e
    else Except.error ("Unknown source: " ++ srcname ++ " specified in mappings")

/-- The second loop of `validate` over `self.sources` (config.rs lines 35-39). -/
def checkSources (c : ConfigContainer) : List (String × SourceConfig) → Except String Unit
  | [] => Except.ok ()
  | (srcname, _) :: rest =>
    if (getValue c.mappings srcname).isNone then
      Except.error ("Source: " ++ srcname ++ " has no mapping")
    else checkSources c rest

/-- The retry-agent check of `validate` (config.rs lines 40-46). The
filesystem predicate `Path::new(..).exists()` is a parameter. -/
def checkRetryAgent (pathExistsOnDisk : String → Bool) (c : ConfigContainer) :
    Except String Unit :=
  match c.retryagent with
  | some (RetryAgentConfig.Filesystem cfg) =>
    if pathExistsOnDisk cfg.path then Except.ok ()
    else Except.error "FilesystemRetryAgent: Path does not exist"
  | _ => Except.ok ()

/-- `ConfigContainer::validate` (config.rs lines 21-48): the two loops in
order, then the retry-agent path check, short-circuiting on the first error. -/
def ConfigContainer.validate (c : ConfigContainer) (pathExistsOnDisk : String → Bool) :
    Except String Unit :=
  match checkMappings c c.mappings with
  | Except.error e => Except.error e
  | Except.ok () =>
    match checkSources c c.sources with
    | Except.error e => Except.error e
    | Except.ok () => checkRetryAgent pathExistsOnDisk c

/-- `ConfigContainer::from_file` (config.rs lines 13-20), with the file
opening and `serde_json` parsing abstracted into the `parsed` argument (an
already-failed `Except` models an unopenable or unparsable file): on parse
success the document is validated and returned unchanged iff validation
passes. -/
def ConfigContainer.fromFile (parsed : Except String ConfigContainer)
    (pathExistsOnDisk : String → Bool) : Except String ConfigContainer :=
  match parsed with
  | Except.error e => Except.error ("Failed to parse config file: " ++ e)
  | Except.ok c =>
    match c.validate pathExistsOnDisk with
    | Except.error e => Except.error e
    | Except.ok () => Except.ok c

/-- `contains_key` on the association-list model finds exactly the keys of
the entries. -/
lemma containsKey_iff {α : Type} (l : List (String × α)) (key : String) :
    containsKey l key = true ↔ ∃ x ∈ l, x.1 = key := by
  induction l with
  | nil => simp [containsKey]
  | cons kv rest ih =>
    obtain ⟨k, v⟩ := kv
    by_cases hk : k = key
    · simp [containsKey, hk]
    · simp [containsKey, hk, ih]

/-- `get(..).is_none()` is false exactly when some entry has the key. -/
lemma getValue_isNone_false_iff {α : Type} (l : List (String × α)) (key : String) :
    ((getValue l key).isNone = false) ↔ ∃ x ∈ l, x.1 = key := by
  induction l with
  | nil => simp [getValue]
  | cons kv rest ih =>
    obtain ⟨k, v⟩ := kv
    by_cases hk : k = key
    · simp [getValue, hk]
    · simp [getValue, hk, ih]

/-- The destination loop accepts exactly when every referenced destination
name is a key of `destinations`. -/
lemma checkMappingDsts_ok_iff (c : ConfigContainer) (dsts : List String) :
    checkMappingDsts c dsts = Except.ok () ↔
      ∀ d ∈ dsts, containsKey c.destinations d = true := by
  induction dsts with
  | nil => simp [checkMappingDsts]
  | cons d rest ih =>
    by_cases hd : containsKey c.destinations d
    · simp [checkMappingDsts, hd, ih]
    · simp [checkMappingDsts, hd]

/-- The mapping loop accepts exactly when every mapping entry names an
existing source and only existing destinations. -/
lemma checkMappings_ok_iff (c : ConfigContainer) (ms : List (String × List String)) :
    checkMappings c ms = Except.ok () ↔
      ∀ m ∈ ms, containsKey c.sources m.1 = true ∧
        ∀ d ∈ m.2, containsKey c.destinations d = true := by
  induction ms with
  | nil => simp [checkMappings]
  | cons m rest ih =>
    obtain ⟨srcname, dsts⟩ := m
    by_cases hs : containsKey c.sources srcname
    · cases hds : checkMappingDsts c dsts with
      | ok u =>
        cases u
        have hall := (checkMappingDsts_ok_iff c dsts).mp hds
        simp [checkMappings, hs, hds, ih, hall]
        exact fun _ => hall
      | error e =>
        have hnall : ¬∀ d ∈ dsts, containsKey c.destinations d = true := by
          intro hall
          rw [(checkMappingDsts_ok_iff c dsts).mpr hall] at hds
          cases hds
        simp [checkMappings, hs, hds, hnall]
    · simp [checkMappings, hs]

/-- The source loop accepts exactly when every source has a mappings entry. -/
lemma checkSources_ok_iff (c : ConfigContainer) (ss : List (String × SourceConfig)) :
    checkSources c ss = Except.ok () ↔
      ∀ s ∈ ss, (getValue c.mappings s.1).isNone = false := by
  induction ss with
  | nil => simp [checkSources]
  | cons s rest ih =>
    obtain ⟨srcname, cfg⟩ := s
    by_cases hn : (getValue c.mappings srcname).isNone
    · simp [checkSources, hn]
    · simp [checkSources, hn, ih]
      intro _
      cases hg : getValue c.mappings srcname with
      | none => rw [hg] at hn; simp at hn
      | some v => simp [hg]

/-- The retry-agent check accepts exactly when a configured filesystem retry
agent's path exists. -/
lemma checkRetryAgent_ok_iff (pe : String → Bool) (c : ConfigContainer) :
    checkRetryAgent pe c = Except.ok () ↔
      (match c.retryagent with
       | some (RetryAgentConfig.Filesystem cfg) => pe cfg.path = true
       | _ => True) := by
  cases hra : c.retryagent with
  | none => simp [checkRetryAgent, hra]
  | some ra =>
    cases ra with
    | Memory cfg => simp [checkRetryAgent, hra]
    | Filesystem cfg =>
      by_cases hp : pe cfg.path
      · simp [checkRetryAgent, hra, hp]
      · simp [checkRetryAgent, hra, hp]

/-- `validate` accepts exactly when all three of its checks accept. -/
lemma validate_ok_iff (c : ConfigContainer) (pe : String → Bool) :
    c.validate pe = Except.ok () ↔
      (checkMappings c c.mappings = Except.ok () ∧
       checkSources c c.sources = Except.ok () ∧
       checkRetryAgent pe c = Except.ok ()) := by
  cases h1 : checkMappings c c.mappings with
  | error e => simp [ConfigContainer.validate, h1]
  | ok u =>
    cases u
    cases h2 : checkSources c c.sources with
    | error e => simp [ConfigContainer.validate, h1, h2]
    | ok u => cases u; simp [ConfigContainer.validate, h1, h2]

/-- The validation rules in the spec's words: "Every name referenced in
`mappings` must exist; every `sources` entry must appear in `mappings`;
filesystem retry agent `path` must exist on disk at load time." -/
def ValidationRulesSpec (pathExistsOnDisk : String → Bool) (c : ConfigContainer) : Prop :=
  (∀ m ∈ c.mappings, (∃ s ∈ c.sources, s.1 = m.1) ∧
    ∀ d ∈ m.2, ∃ ds ∈ c.destinations, ds.1 = d)
  ∧ (∀ s ∈ c.sources, ∃ m ∈ c.mappings, m.1 = s.1)
  ∧ (match c.retryagent with
     | some (RetryAgentConfig.Filesystem cfg) => pathExistsOnDisk cfg.path = true
     | _ => True)

/-- `validate` accepts a parsed document exactly when the spec's validation
rules hold for it. -/
lemma validate_ok_iff_spec (c : ConfigContainer) (pe : String → Bool) :
    c.validate pe = Except.ok () ↔ ValidationRulesSpec pe c := by
  rw [validate_ok_iff, checkMappings_ok_iff, checkSources_ok_iff, checkRetryAgent_ok_iff]
  simp only [containsKey_iff, getValue_isNone_false_iff]
  exact Iff.rfl

/-- Claim C5: `ConfigContainer::from_file` returns the parsed config iff the
document satisfies all the validation rules (mappings reference only existing
sources and destinations, every source appears in mappings, a filesystem
retry agent's path exists on disk), and returns an error — never a config —
whenever one of the rules is violated. -/
theorem c5_from_file_validation (pe : String → Bool) (c : ConfigContainer) :
    (ConfigContainer.fromFile (Except.ok c) pe = Except.ok c ↔ ValidationRulesSpec pe c)
    ∧ (¬ ValidationRulesSpec pe c →
        ∃ e, ConfigContainer.fromFile (Except.ok c) pe = Except.error e) := by
  cases hv : c.validate pe with
  | ok u =>
    cases u
    have hspec : ValidationRulesSpec pe c := (validate_ok_iff_spec c pe).mp hv
    exact ⟨by simp [ConfigContainer.fromFile, hv, hspec], fun hns => absurd hspec hns⟩
  | error e =>
    have hnspec : ¬ ValidationRulesSpec pe c := by
      intro hs
      rw [(validate_ok_iff_spec c pe).mpr hs] at hv
      cases hv
    exact ⟨by simp [ConfigContainer.fromFile, hv, hnspec],
      fun _ => ⟨e, by simp [ConfigContainer.fromFile, hv]⟩⟩

def goodConfig : ConfigContainer :=
  { destinations := [("d1", DestinationConfig.Test { failNFirst := 0 })]
    sources := [("s1", SourceConfig.Test)]
    retryagent := some (RetryAgentConfig.Memory { delay := 1 })
    mappings := [("s1", ["d1"])] }

def noPath : String → Bool := fun _ => false

theorem c5_from_file_validation_witness :
    ConfigContainer.fromFile (Except.ok goodConfig) noPath = Except.ok goodConfig :=
  (c5_from_file_validation noPath goodConfig).1.mpr (by
    refine ⟨?_, ?_, ?_⟩ <;> simp [goodConfig])

def emptyMappingConfig : ConfigContainer :=
  { destinations := []
    sources := [("s1", SourceConfig.Test)]
    retryagent := none
    mappings := [("s1", [])] }

/-- Claim C6 counterexample: the claim states that a config in which some
source maps to an empty destination list is rejected at load, but `validate`
accepts this config, in which source `s1` maps to the empty list — the inner
destination loop simply has nothing to check and no emptiness test exists. -/
theorem c6_counterexample :
    emptyMappingConfig.validate noPath = Except.ok ()
    ∧ emptyMappingConfig.mappings = [("s1", [])] := ⟨rfl, rfl⟩

/-- Claim C6 (amended): for every config accepted by validation, the mapping
table assigns every source an entry (a possibly empty list of destination
names); validation does not require the list to be non-empty, so a source
mapping to an empty destination list is accepted, not rejected. -/
theorem c6_source_has_mapping_entry (pe : String → Bool) (c : ConfigContainer)
    (h : c.validate pe = Except.ok ()) :
    ∀ s ∈ c.sources, ∃ m ∈ c.mappings, m.1 = s.1 :=
  ((validate_ok_iff_spec c pe).mp h).2.1

theorem c6_source_has_mapping_entry_witness :
    ∃ m ∈ goodConfig.mappings, m.1 = "s1" :=
  c6_source_has_mapping_entry noPath goodConfig rfl ("s1", SourceConfig.Test) (by decide)

/-- Observable network actions an `ImapConnection` operation performs, in
order: the TCP/TLS connect of `client()`, the `login` call, the `logout`
of the drop handler (tagged with the session it logs out of). -/
inductive ConnAction where
  | connect
  | loginAttempt (user password : String)
  | logout (g : Nat)
deriving DecidableEq

/-- The mutable state of an `ImapConnection` (common.rs lines 32-37): the
`RefCell<Option<ImapSession>>` cell, plus the connection parameters that
matter for the embedding (the auth method). Sessions are identified by a
generation number; `nextGen` is the id the next successfully established
session will get, so distinct establishments yield distinct sessions. -/
structure ConnState where
  auth : AuthMethod
  session : Option Nat
  nextGen : Nat
deriving DecidableEq

/-- Outcome of `ImapConnection::session` (common.rs lines 57-77): a live
session (with the state after the call) plus the actions performed, an
`anyhow` error, or a Rust panic (the `unimplemented!()` of the PLAIN arm). -/
inductive SessionOut where
  | ok (g : Nat) (st : ConnState) (acts : List ConnAction)
  | error (e : String) (acts : List ConnAction)
  | panicked (acts : List ConnAction)
deriving DecidableEq

/-- `ImapConnection::session`: if a session is cached it is returned as-is;
otherwise `client()` connects (`connectOk` says whether the TCP/TLS connect
succeeds), then the auth method is matched: `Plain` hits `unimplemented!()`
and panics, `Login` calls `login` (`loginOk` says whether it succeeds) and on
success the fresh session is cached. -/
def ImapConnection.session (connectOk loginOk : Bool) (st : ConnState) : SessionOut :=
  match st.session with
  | some g => SessionOut.ok g st []
  | none =>
    if connectOk then
      match st.auth with
      | AuthMethod.Plain _ _ => SessionOut.panicked [ConnAction.connect]
      | AuthMethod.Login u p =>
        if loginOk then
          SessionOut.ok st.nextGen
            { st with session := some st.nextGen, nextGen := st.nextGen + 1 }
            [ConnAction.connect, ConnAction.loginAttempt u p]
        else
          SessionOut.error "Failed to authenticate with the IMAP server."
            [ConnAction.connect, ConnAction.loginAttempt u p]
    else SessionOut.error "Failed to connect to IMAP server." [ConnAction.connect]

/-- Outcome of `ImapConnection::take_session` (common.rs lines 78-84). -/
inductive TakeOut where
  | ok (g : Nat) (st : ConnState) (acts : List ConnAction)
  | error (e : String) (st : ConnState) (acts : List ConnAction)
  | panicked (acts : List ConnAction)
deriving DecidableEq

/-- `ImapConnection::take_session`: `let _ = self.session()?;` first ensures
a session exists — establishing one (connect + login) when none is cached —
then takes it out of the cell, leaving `None` behind. -/
def ImapConnection.takeSession (connectOk loginOk : Bool) (st : ConnState) : TakeOut :=
  match ImapConnection.session connectOk loginOk st with
  | SessionOut.error e acts => TakeOut.error e st acts
  | SessionOut.panicked acts => TakeOut.panicked acts
  | SessionOut.ok g st' acts => TakeOut.ok g { st' with session := none } acts

/-- Result of one closure invocation inside `ImapConnection::run`: the
`ImapResult<R>` of `runfn`. -/
inductive ClosureRes (R : Type) where
  | ok (r : R)
  | connectionLost
  | err (e : String)

/-- Outcome of `ImapConnection::run`, modelled with fuel because the Rust
`loop` need not terminate: `running` means the fuel ran out with the loop
still going (carrying the loop state at that point). `calls` counts how often
the closure has been invoked. -/
inductive RunResult (R : Type) where
  | ok (r : R) (st : ConnState) (calls : Nat)
  | error (e : String) (st : ConnState) (calls : Nat)
  | panicked (calls : Nat)
  | running (st : ConnState) (calls : Nat) (retry : Nat)

/-- The `loop` of `ImapConnection::run` (common.rs lines 85-106). `ops k` is
the result of the k-th invocation of the closure `runfn` against a live
session. Each iteration calls `self.session()?` (propagating its error),
invokes the closure, and then: `Ok` returns the result; `ConnectionLost`
discards the cached session and retries (the `retry` counter is untouched);
any other error increments `retry` and surfaces the error with context once
`retry >= 3`. -/
def ImapConnection.runLoop {R : Type} (connectOk loginOk : Bool)
    (ops : Nat → ClosureRes R) :
    Nat → ConnState → Nat → Nat → RunResult R
  | 0, st, k, retry => RunResult.running st k retry
  | fuel + 1, st, k, retry =>
    match ImapConnection.session connectOk loginOk st with
    | SessionOut.error e _ => RunResult.error e st k
    | SessionOut.panicked _ => RunResult.panicked k
    | SessionOut.ok _ st' _ =>
      match ops k with
      | ClosureRes.ok r => RunResult.ok r st' (k + 1)
      | ClosureRes.connectionLost =>
        ImapConnection.runLoop connectOk loginOk ops fuel
          { st' with session := none } (k + 1) retry
      | ClosureRes.err e =>
        if retry + 1 ≥ 3 then
          RunResult.error ("IMAP request failed: " ++ e) st' (k + 1)
        else
          ImapConnection.runLoop connectOk loginOk ops fuel st' (k + 1) (retry + 1)

/-- `ImapConnection::run`: the loop starts with `retry = 0` and no closure
invocations yet. -/
def ImapConnection.run {R : Type} (connectOk loginOk : Bool)
    (ops : Nat → ClosureRes R) (fuel : Nat) (st : ConnState) : RunResult R :=
  ImapConnection.runLoop connectOk loginOk ops fuel st 0 0

/-- Outcome of the `Drop` impl for `ImapConnection` (common.rs lines
198-204): the actions performed, or a panic propagated out of
`take_session`. -/
inductive DropOut where
  | done (acts : List ConnAction)
  | panicked (acts : List ConnAction)
deriving DecidableEq

/-- The `Drop` impl: `if let Ok(session) = &mut self.take_session()` — so a
session is first ensured (connecting and authenticating when none is cached)
— and on success `logout` is attempted with its result ignored; a
`take_session` error means no logout. -/
def ImapConnection.dropRun (connectOk loginOk : Bool) (st : ConnState) : DropOut :=
  match ImapConnection.takeSession connectOk loginOk st with
  | TakeOut.ok g _ acts => DropOut.done (acts ++ [ConnAction.logout g])
  | TakeOut.error _ _ acts => DropOut.done acts
  | TakeOut.panicked acts => DropOut.panicked acts

/-- Outcome of `ImapConnection::idle` (common.rs lines 191-197): the IDLE
handle holding the consumed session, with the connection state left behind. -/
inductive IdleOut where
  | ok (handleSession : Nat) (st : ConnState) (acts : List ConnAction)
  | error (e : String) (st : ConnState) (acts : List ConnAction)
  | panicked (acts : List ConnAction)
deriving DecidableEq

/-- `ImapConnection::idle`: `take_session` consumes the session (creating one
first if none is cached) into an IDLE handle, then `init` runs (`initOk` says
whether it succeeds). -/
def ImapConnection.idle (connectOk loginOk initOk : Bool) (st : ConnState) : IdleOut :=
  match ImapConnection.takeSession connectOk loginOk st with
  | TakeOut.error e st' acts => IdleOut.error e st' acts
  | TakeOut.panicked acts => IdleOut.panicked acts
  | TakeOut.ok g st' acts =>
    if initOk then IdleOut.ok g st' acts
    else IdleOut.error "Failed to initialize IDLE session with IMAP server" st' acts

/-- One unfolding of the `run` loop. -/
lemma runLoop_succ {R : Type} (connectOk loginOk : Bool) (ops : Nat → ClosureRes R)
    (fuel : Nat) (st : ConnState) (k retry : Nat) :
    ImapConnection.runLoop connectOk loginOk ops (fuel + 1) st k retry =
      match ImapConnection.session connectOk loginOk st with
      | SessionOut.error e _ => RunResult.error e st k
      | SessionOut.panicked _ => RunResult.panicked k
      | SessionOut.ok _ st' _ =>
        match ops k with
        | ClosureRes.ok r => RunResult.ok r st' (k + 1)
        | ClosureRes.connectionLost =>
          ImapConnection.runLoop connectOk loginOk ops fuel
            { st' with session := none } (k + 1) retry
        | ClosureRes.err e =>
          if retry + 1 ≥ 3 then
            RunResult.error ("IMAP request failed: " ++ e) st' (k + 1)
          else
            ImapConnection.runLoop connectOk loginOk ops fuel st' (k + 1) (retry + 1) := rfl

/-- Claim C3: with a live session cached, (a) a closure that succeeds makes
`run` return its result after one invocation; (b) a closure that first fails
with `ConnectionLost` has the cached session discarded and the operation
retried — the retry succeeds on a freshly established session (note the new
generation `n`); (c) a closure failing with any other error on every
invocation is invoked exactly three times, after which `run` surfaces the
error with the "IMAP request failed" context. -/
theorem c3_run_retry_policy (u p : String) (g n : Nat) {R : Type} :
    (∀ (ops : Nat → ClosureRes R) (r : R) (fuel : Nat), ops 0 = ClosureRes.ok r →
      ImapConnection.run true true ops (fuel + 1) ⟨AuthMethod.Login u p, some g, n⟩ =
        RunResult.ok r ⟨AuthMethod.Login u p, some g, n⟩ 1)
    ∧ (∀ (ops : Nat → ClosureRes R) (r : R) (fuel : Nat),
        ops 0 = ClosureRes.connectionLost → ops 1 = ClosureRes.ok r →
        ImapConnection.run true true ops (fuel + 2) ⟨AuthMethod.Login u p, some g, n⟩ =
          RunResult.ok r ⟨AuthMethod.Login u p, some n, n + 1⟩ 2)
    ∧ (∀ (ops : Nat → ClosureRes R) (e : String) (fuel : Nat),
        (∀ k, ops k = ClosureRes.err e) →
        ImapConnection.run true true ops (fuel + 3) ⟨AuthMethod.Login u p, some g, n⟩ =
          RunResult.error ("IMAP request failed: " ++ e)
            ⟨AuthMethod.Login u p, some g, n⟩ 3) := by
  refine ⟨?_, ?_, ?_⟩
  · intro ops r fuel h0
    show ImapConnection.runLoop true true ops (fuel + 1) _ 0 0 = _
    rw [runLoop_succ]
    simp [ImapConnection.session, h0]
  · intro ops r fuel h0 h1
    show ImapConnection.runLoop true true ops (fuel + 1 + 1) _ 0 0 = _
    rw [runLoop_succ]
    simp only [ImapConnection.session, h0]
    rw [runLoop_succ]
    simp [ImapConnection.session, h1]
  · intro ops e fuel hops
    show ImapConnection.runLoop true true ops (fuel + 1 + 1 + 1) _ 0 0 = _
    rw [runLoop_succ]
    simp only [ImapConnection.session, hops 0]
    rw [if_neg (by omega), runLoop_succ]
    simp only [ImapConnection.session, hops 1]
    rw [if_neg (by omega), runLoop_succ]
    simp only [ImapConnection.session, hops 2]
    rw [if_pos (by omega)]

def errorOps : Nat → ClosureRes Nat := fun _ => ClosureRes.err "boom"

def lostOps : Nat → ClosureRes Nat := fun _ => ClosureRes.connectionLost

def okOps : Nat → ClosureRes Nat := fun _ => ClosureRes.ok 0

theorem c3_run_retry_policy_witness :
    ImapConnection.run true true errorOps 5 ⟨AuthMethod.Login "u" "p", some 0, 1⟩ =
      RunResult.error ("IMAP request failed: " ++ "boom")
        ⟨AuthMethod.Login "u" "p", some 0, 1⟩ 3 :=
  (c3_run_retry_policy "u" "p" 0 1).2.2 errorOps "boom" 2 (fun _ => rfl)

/-- Claim C10: `ConnectionLost` failures do not count toward the
three-attempt limit of `run`: when every closure invocation fails with
`ConnectionLost` (and reconnecting always succeeds), the loop is, for every
fuel bound, still running after invoking the closure once per iteration, with
the `retry` counter unchanged — `run` never returns. -/
theorem c10_connection_lost_never_returns {R : Type} (ops : Nat → ClosureRes R)
    (hops : ∀ k, ops k = ClosureRes.connectionLost) (u p : String) :
    ∀ (fuel : Nat) (st : ConnState), st.auth = AuthMethod.Login u p →
      ∀ (k retry : Nat),
        ∃ st', ImapConnection.runLoop true true ops fuel st k retry =
            RunResult.running st' (k + fuel) retry ∧ st'.auth = AuthMethod.Login u p := by
  intro fuel
  induction fuel with
  | zero =>
    intro st hauth k retry
    exact ⟨st, by simp [ImapConnection.runLoop], hauth⟩
  | succ fuel ih =>
    intro st hauth k retry
    have harith : k + 1 + fuel = k + (fuel + 1) := by omega
    cases hs : st.session with
    | some g =>
      have step : ImapConnection.runLoop true true ops (fuel + 1) st k retry =
          ImapConnection.runLoop true true ops fuel
            { st with session := none } (k + 1) retry := by
        rw [runLoop_succ]
        simp [ImapConnection.session, hs, hops k]
      rcases ih { st with session := none } hauth (k + 1) retry with ⟨st', hrun, hst'⟩
      refine ⟨st', ?_, hst'⟩
      rw [step, hrun, harith]
    | none =>
      have step : ImapConnection.runLoop true true ops (fuel + 1) st k retry =
          ImapConnection.runLoop true true ops fuel
            ⟨AuthMethod.Login u p, none, st.nextGen + 1⟩ (k + 1) retry := by
        rw [runLoop_succ]
        simp [ImapConnection.session, hs, hauth, hops k]
      rcases ih ⟨AuthMethod.Login u p, none, st.nextGen + 1⟩ rfl (k + 1) retry with
        ⟨st', hrun, hst'⟩
      refine ⟨st', ?_, hst'⟩
      rw [step, hrun, harith]

theorem c10_connection_lost_never_returns_witness :
    ∃ st', ImapConnection.runLoop true true lostOps 2
        ⟨AuthMethod.Login "u" "p", some 0, 1⟩ 0 0 =
      RunResult.running st' (0 + 2) 0 ∧ st'.auth = AuthMethod.Login "u" "p" :=
  c10_connection_lost_never_returns lostOps (fun _ => rfl) "u" "p" 2
    ⟨AuthMethod.Login "u" "p", some 0, 1⟩ rfl 0 0

def plainConn : ConnState := ⟨AuthMethod.Plain "user" "secret", none, 0⟩

/-- Claim C7 counterexample: the claim states that establishing a session
with PLAIN authentication fails fast by RETURNING a clear error. On a
connection configured with PLAIN auth and no cached session, `session()`
instead hits the `unimplemented!()` arm and panics after connecting — the
result is the `panicked` outcome, not an `error` return. -/
theorem c7_counterexample :
    ImapConnection.session true true plainConn =
      SessionOut.panicked [ConnAction.connect] := rfl

/-- Claim C7 (amended): for every connection configured with PLAIN
authentication and no cached session, every operation that establishes a
session — `session()` itself (hence session creation inside `run` and
iteration) and `idle()` — fails fast by panicking on the `unimplemented!()`
arm before any authentication is attempted (the action list holds no
`loginAttempt`, only the connect). -/
theorem c7_plain_auth_panics (loginOk initOk : Bool) (u p : String) (n : Nat)
    {R : Type} (ops : Nat → ClosureRes R) (fuel k retry : Nat) :
    ImapConnection.session true loginOk ⟨AuthMethod.Plain u p, none, n⟩ =
      SessionOut.panicked [ConnAction.connect]
    ∧ ImapConnection.runLoop true loginOk ops (fuel + 1)
        ⟨AuthMethod.Plain u p, none, n⟩ k retry = RunResult.panicked k
    ∧ ImapConnection.idle true loginOk initOk ⟨AuthMethod.Plain u p, none, n⟩ =
        IdleOut.panicked [ConnAction.connect] := by
  refine ⟨rfl, ?_, rfl⟩
  rw [runLoop_succ]
  rfl

def freshLoginConn : ConnState := ⟨AuthMethod.Login "user" "secret", none, 0⟩

/-- Claim C8 counterexample: the claim states that when no session is cached,
drop performs no connection or authentication attempt. Dropping a connection
with no cached session (and a reachable server) instead connects,
authenticates, and then logs out of the freshly created session, because the
`Drop` impl calls `take_session`, which first ensures a session exists. -/
theorem c8_counterexample :
    ImapConnection.dropRun true true freshLoginConn =
      DropOut.done [ConnAction.connect, ConnAction.loginAttempt "user" "secret",
        ConnAction.logout 0] := rfl

/-- Claim C8 (amended): on destruction a LOGOUT is attempted on the session
obtained from `take_session`, with any error ignored: when a session is
cached, exactly that session is logged out with no connection or
authentication attempt; when none is cached, drop first attempts to connect
and authenticate, logging out of the fresh session on success and doing
nothing further when the connection attempt fails. -/
theorem c8_drop_ensures_session (loginOk : Bool) (u p : String) (g n : Nat)
    (auth : AuthMethod) :
    ImapConnection.dropRun true loginOk ⟨auth, some g, n⟩ =
      DropOut.done [ConnAction.logout g]
    ∧ ImapConnection.dropRun false loginOk ⟨auth, some g, n⟩ =
        DropOut.done [ConnAction.logout g]
    ∧ ImapConnection.dropRun true true ⟨AuthMethod.Login u p, none, n⟩ =
        DropOut.done [ConnAction.connect, ConnAction.loginAttempt u p, ConnAction.logout n]
    ∧ ImapConnection.dropRun false loginOk ⟨AuthMethod.Login u p, none, n⟩ =
        DropOut.done [ConnAction.connect] :=
  ⟨rfl, rfl, rfl, rfl⟩

/-- Claim C9 counterexample: the claim states that after `idle()` consumes
the session, non-IDLE requests do not create a second concurrent session
while the IDLE handle is outstanding. But after `idle()` hands out session 7,
a `run` on the connection transparently establishes a NEW session
(generation 10) while the handle still holds session 7 — nothing prevents the
second concurrent session. -/
theorem c9_counterexample :
    ImapConnection.idle true true true ⟨AuthMethod.Login "u" "p", some 7, 10⟩ =
      IdleOut.ok 7 ⟨AuthMethod.Login "u" "p", none, 10⟩ []
    ∧ ImapConnection.run true true okOps 1 ⟨AuthMethod.Login "u" "p", none, 10⟩ =
        RunResult.ok 0 ⟨AuthMethod.Login "u" "p", some 10, 11⟩ 1 := ⟨rfl, rfl⟩

/-- Claim C9 (amended): the connection's cell caches at most one session,
and `idle()` consumes the cached session `g` into the IDLE handle, leaving
the cache empty; however the connection remains usable for non-IDLE
requests, and a subsequent `run` transparently establishes a fresh session
`n` distinct from the one held by the outstanding IDLE handle — the
connection code itself does not prevent the second concurrent session. -/
theorem c9_idle_consumes_session (u p : String) (g n : Nat) {R : Type}
    (ops : Nat → ClosureRes R) (r : R) (fuel : Nat)
    (hops : ops 0 = ClosureRes.ok r) (hg : g < n) :
    ImapConnection.idle true true true ⟨AuthMethod.Login u p, some g, n⟩ =
      IdleOut.ok g ⟨AuthMethod.Login u p, none, n⟩ []
    ∧ ImapConnection.run true true ops (fuel + 1) ⟨AuthMethod.Login u p, none, n⟩ =
        RunResult.ok r ⟨AuthMethod.Login u p, some n, n + 1⟩ 1
    ∧ g ≠ n := by
  refine ⟨rfl, ?_, Nat.ne_of_lt hg⟩
  show ImapConnection.runLoop true true ops (fuel + 1) _ 0 0 = _
  rw [runLoop_succ]
  simp [ImapConnection.session, hops]

theorem c9_idle_consumes_session_witness :
    ImapConnection.idle true true true ⟨AuthMethod.Login "u" "p", some 7, 10⟩ =
      IdleOut.ok 7 ⟨AuthMethod.Login "u" "p", none, 10⟩ [] :=
  (c9_idle_consumes_session "u" "p" 7 10 okOps 0 0 rfl (by omega)).1
